import Mathlib

set_option autoImplicit false

/-!
Shallow embedding of the batched-download coordination and selection/delete
orchestration core of the storage-browser application (source: src/App.tsx,
also present as src/unnamed/part_000).  Pure helpers become Lean functions;
the module-level mutable `downloadBatch` becomes explicit state passing;
promise-returning code becomes `Except`-valued functions over an explicit
backend environment; promise identity is modelled by natural-number ids.
-/

/-- A JavaScript thrown value as far as this code inspects it: whether it is an
`Error` instance, its `name`, and its `message`. -/
structure JsError where
  isError : Bool
  name : String
  message : String
deriving Repr, DecidableEq

/-- Character-level split, the semantics of the JavaScript `s.split(sep)` call
for a single-character separator: every occurrence of the separator ends a
segment, so leading, trailing and doubled separators produce empty segments
(for example the characters of "a/b/" split into ["a", "b", ""]). -/
def splitOnChar (sep : Char) : List Char → List (List Char)
  | [] => [[]]
  | c :: cs =>
    match splitOnChar sep cs with
    | [] => [[]]
    | s :: ss => if c = sep then [] :: (s :: ss) else (c :: s) :: ss

/-- The JavaScript `key.split(sep)` expression, as a function on Lean strings. -/
def jsSplit (sep : Char) (s : String) : List String :=
  (splitOnChar sep s.toList).map (fun cs => String.mk cs)

/-- `getFileName` from the source: split the key on `/`, drop empty segments
(`filter(Boolean)`), take the last segment, and fall back to the whole key when
no segment remains (`segments[segments.length - 1] ?? key`). -/
def getFileName (key : String) : String :=
  (((jsSplit '/' key).filter (fun s => s ≠ "")).getLast?).getD key

/-- `areKeysEqual` from the source: `false` when the lengths differ, otherwise
`first.every((key, index) => key === second[index])`, modelled by a pointwise
comparison of the zipped lists (the length test has already ensured the zip
covers both lists). -/
def areKeysEqual (first second : List String) : Bool :=
  if first.length != second.length then
    false
  else
    (List.zip first second).all (fun p => p.1 == p.2)

/-- The module-level `DownloadBatchState` record: the ordered key list and the
optional in-flight promise (promises are identified by a `Nat` id). -/
structure DownloadBatchState where
  keys : List String
  promise : Option Nat
deriving Repr, DecidableEq

/-- `setDownloadBatchKeys` from the source, with the mutable module-level
`downloadBatch` variable passed explicitly: an empty key list clears the state;
a key list equal (per `areKeysEqual`) to the current batch keys is a no-op;
otherwise the state is replaced by a fresh record (whose `promise` field is
absent, i.e. `none`). -/
def setDownloadBatchKeys (keys : List String) (downloadBatch : Option DownloadBatchState) :
    Option DownloadBatchState :=
  if keys.isEmpty then
    none
  else
    match downloadBatch with
    | some batch =>
      if areKeysEqual batch.keys keys then
        some batch
      else
        some { keys := keys, promise := none }
    | none => some { keys := keys, promise := none }

/-- Models the download handler later storing an in-flight promise on the
current batch record (the `batch.promise = ...` assignment in `downloadHandler`),
without touching the keys. -/
def attachPromise (downloadBatch : Option DownloadBatchState) (p : Option Nat) :
    Option DownloadBatchState :=
  downloadBatch.map (fun batch => { batch with promise := p })

/-- Pointwise equality of zipped lists of the same length decides equality. -/
theorem zip_all_eq : ∀ (l1 l2 : List String), l1.length = l2.length →
    (((l1.zip l2).all fun p => p.1 == p.2) = true ↔ l1 = l2)
  | [], [], _ => by simp
  | [], _ :: _, h => by simp at h
  | _ :: _, [], h => by simp at h
  | a :: as, b :: bs, h => by
    have hlen : as.length = bs.length := by simpa using h
    have ih := zip_all_eq as bs hlen
    simp only [List.zip_cons_cons, List.all_cons, Bool.and_eq_true, beq_iff_eq, ih,
      List.cons.injEq]

/-- `areKeysEqual` decides exactly list equality: the length test plus the
positional comparison succeed iff the two key lists are equal. -/
theorem areKeysEqual_iff (first second : List String) :
    areKeysEqual first second = true ↔ first = second := by
  unfold areKeysEqual
  by_cases hlen : first.length = second.length
  · have hcond : (first.length != second.length) = false := by
      simp [bne_eq_false_iff_eq, hlen]
    rw [hcond]
    simp only [Bool.false_eq_true, if_false]
    exact zip_all_eq first second hlen
  · have hcond : (first.length != second.length) = true := by
      simp [bne_iff_ne, hlen]
    rw [hcond]
    simp only [if_true, Bool.false_eq_true, false_iff]
    intro hcon
    exact hlen (by rw [hcon])

/-- After `setDownloadBatchKeys K` with nonempty `K`, the stored keys are
exactly `K` (either the call replaced the record with a fresh one for `K`, or
it was a no-op because the existing keys already equalled `K`). -/
theorem setDownloadBatchKeys_keys (K : List String) (st : Option DownloadBatchState)
    (h : K ≠ []) :
    ∃ pr, setDownloadBatchKeys K st = some { keys := K, promise := pr } := by
  have hK : K.isEmpty = false := by
    cases K with
    | nil => exact absurd rfl h
    | cons a as => rfl
  cases st with
  | none => exact ⟨none, by simp [setDownloadBatchKeys, hK]⟩
  | some batch =>
    cases batch with
    | mk ks pr =>
      by_cases heq : areKeysEqual ks K = true
      · refine ⟨pr, ?_⟩
        have hbk : ks = K := (areKeysEqual_iff ks K).mp heq
        subst hbk
        simp [setDownloadBatchKeys, hK, heq]
      · refine ⟨none, ?_⟩
        simp only [Bool.not_eq_true] at heq
        simp [setDownloadBatchKeys, hK, heq]

/-- C4: for nonempty key lists K1 ≠ K2 (differing in order or content; equality
is positional, via `areKeysEqual`), `setBatchKeys K1` followed by
`setBatchKeys K2` — even if a promise was attached to the batch in between —
replaces the batch record entirely with a fresh, promise-less record for K2;
and `setBatchKeys []` always clears batch state regardless of prior content. -/
theorem setBatchKeys_replace (st : Option DownloadBatchState)
    (K1 K2 : List String) (p : Option Nat)
    (h1 : K1 ≠ []) (h2 : K2 ≠ []) (hne : K1 ≠ K2) :
    setDownloadBatchKeys K2 (attachPromise (setDownloadBatchKeys K1 st) p)
      = some { keys := K2, promise := none }
    ∧ ∀ stAny : Option DownloadBatchState, setDownloadBatchKeys [] stAny = none := by
  constructor
  · obtain ⟨pr, hpr⟩ := setDownloadBatchKeys_keys K1 st h1
    rw [hpr]
    have hK2 : K2.isEmpty = false := by
      cases K2 with
      | nil => exact absurd rfl h2
      | cons a as => rfl
    have hfalse : areKeysEqual K1 K2 = false := by
      cases hcase : areKeysEqual K1 K2 with
      | false => rfl
      | true => exact absurd ((areKeysEqual_iff K1 K2).mp hcase) hne
    simp [attachPromise, setDownloadBatchKeys, hK2, hfalse]
  · intro stAny
    rfl

/-- C5: a second consecutive `setBatchKeys K` call with the identical key list
is a no-op — the batch record produced by the first call, including any promise
attached to it in the meantime, is preserved unchanged. -/
theorem setBatchKeys_noop (st : Option DownloadBatchState) (K : List String)
    (p : Option Nat) (h : K ≠ []) :
    setDownloadBatchKeys K (attachPromise (setDownloadBatchKeys K st) p)
      = attachPromise (setDownloadBatchKeys K st) p := by
  obtain ⟨pr, hpr⟩ := setDownloadBatchKeys_keys K st h
  rw [hpr]
  have hK : K.isEmpty = false := by
    cases K with
    | nil => exact absurd rfl h
    | cons a as => rfl
  have heq : areKeysEqual K K = true := (areKeysEqual_iff K K).mpr rfl
  simp [attachPromise, setDownloadBatchKeys, hK, heq]

/-- C4 witness: a concrete replacement — the batch for ["a", "b"] with an
in-flight promise is replaced by a fresh promise-less batch for the reordered
list ["b", "a"], and the empty list clears state. -/
theorem setBatchKeys_replace_witness :
    setDownloadBatchKeys ["b", "a"]
        (attachPromise (setDownloadBatchKeys ["a", "b"] none) (some 0))
      = some { keys := ["b", "a"], promise := none }
    ∧ ∀ stAny : Option DownloadBatchState, setDownloadBatchKeys [] stAny = none :=
  setBatchKeys_replace none ["a", "b"] ["b", "a"] (some 0)
    (by decide) (by decide) (by decide)

/-- C5 witness: a concrete no-op — repeating `setBatchKeys ["a", "b"]` after a
promise was attached preserves the record, promise included. -/
theorem setBatchKeys_noop_witness :
    setDownloadBatchKeys ["a", "b"]
        (attachPromise (setDownloadBatchKeys ["a", "b"] none) (some 7))
      = attachPromise (setDownloadBatchKeys ["a", "b"] none) (some 7) :=
  setBatchKeys_noop none ["a", "b"] (some 7) (by decide)

/-- For any list, `getLast?.getD d` is `d` on the empty list and otherwise the
final element of the list. -/
theorem getLastD_split (l : List String) (d : String) :
    (l = [] ∧ l.getLast?.getD d = d) ∨ ∃ l2, l = l2 ++ [l.getLast?.getD d] := by
  cases l with
  | nil => exact Or.inl ⟨rfl, rfl⟩
  | cons a as =>
    right
    have hne : a :: as ≠ ([] : List String) := List.cons_ne_nil a as
    refine ⟨(a :: as).dropLast, ?_⟩
    rw [List.getLast?_eq_getLast _ hne]
    simp only [Option.getD_some]
    exact (List.dropLast_append_getLast hne).symm

/-- C9: `getFileName` returns the last nonempty `/`-separated segment of the
key — formally, either no nonempty segment exists and the whole key is
returned, or the list of nonempty segments ends in the returned value — and
the three concrete examples from the specification hold. -/
theorem getFileName_spec :
    (∀ key : String,
        (((jsSplit '/' key).filter (fun s => s ≠ "")) = [] ∧ getFileName key = key)
        ∨ ∃ l, ((jsSplit '/' key).filter (fun s => s ≠ "")) = l ++ [getFileName key])
    ∧ getFileName "projects/x/report.pdf" = "report.pdf"
    ∧ getFileName "onlyname" = "onlyname"
    ∧ getFileName "a/b/" = "b" := by
  refine ⟨?_, by decide, by decide, by decide⟩
  intro key
  simpa [getFileName] using
    getLastD_split ((jsSplit '/' key).filter (fun s => s ≠ "")) key

/-- The backend and browser environment seen by the download orchestrator:
presigned-URL resolution per key (a promise that resolves to the URL string or
rejects), the result of fetching a URL, and the wall clock for archive names. -/
structure DownloadEnv where
  getUrl : String → Except JsError String
  fetchOk : String → Bool
  fetchBlob : String → Nat
  now : Nat

/-- Status-carrying result of one download task, the shape the view layer
consumes: COMPLETE with the resolved URL, or FAILED with the error and its
message. -/
inductive TaskResult where
  | complete (url : String)
  | failed (error : JsError) (message : String)
deriving Repr, DecidableEq

/-- `createArchiveName` from the source: base name from the first key (with a
fixed fallback for an empty list), a count suffix when more than one key is
present, the current timestamp, and a .zip extension. -/
def createArchiveName (now : Nat) (keys : List String) : String :=
  let firstName := getFileName (keys.headD "storage-download")
  let suffix := if keys.length > 1 then "-" ++ toString keys.length ++ "-files" else ""
  firstName ++ suffix ++ "-" ++ toString now ++ ".zip"

/-- The fetch-and-collect loop of `downloadAsArchive`: for each key in order,
resolve a presigned URL (propagating rejection), fetch it, throw
"Failed to download <key>" on a non-ok response, and otherwise record the
zip entry (internal path = key, content = blob). -/
def buildZipEntries (env : DownloadEnv) : List String → Except JsError (List (String × Nat))
  | [] => Except.ok []
  | key :: rest =>
    match env.getUrl key with
    | Except.error e => Except.error e
    | Except.ok url =>
      if env.fetchOk url then
        match buildZipEntries env rest with
        | Except.error e => Except.error e
        | Except.ok entries => Except.ok ((key, env.fetchBlob url) :: entries)
      else
        Except.error { isError := true, name := "Error",
                       message := "Failed to download " ++ key }

/-- `downloadAsArchive` from the source: build all zip entries (aborting on the
first failure), serialize, trigger a blob download named by
`createArchiveName`, and resolve COMPLETE with the temporary blob URL (the
opaque object URL is modelled as "blob:" followed by the archive name). -/
def downloadAsArchive (env : DownloadEnv) (keys : List String) : Except JsError TaskResult :=
  (buildZipEntries env keys).map
    (fun _ => TaskResult.complete ("blob:" ++ createArchiveName env.now keys))

/-- `downloadSingleFile` from the source: resolve the presigned URL (rejection
propagates), trigger the browser download, and resolve COMPLETE with the URL. -/
def downloadSingleFile (env : DownloadEnv) (key : String) : Except JsError TaskResult :=
  (env.getUrl key).map (fun url => TaskResult.complete url)

/-- The `.catch` attached to the single-file promise in `downloadHandler`: an
error becomes a FAILED task result carrying the error and its message. -/
def catchAsFailed (r : Except JsError TaskResult) : TaskResult :=
  match r with
  | Except.ok t => t
  | Except.error e => TaskResult.failed e e.message

/-- The mutable module state read and written by the download path: the batch
record plus a fresh-id counter standing in for allocation of new promises. -/
structure AppState where
  downloadBatch : Option DownloadBatchState
  nextPromiseId : Nat
deriving Repr, DecidableEq

/-- What one `downloadHandler` invocation hands back to the caller: either the
settled single-file result, or the (shared) batch promise identified by id. -/
inductive DownloadOutcome where
  | singleResult (r : TaskResult)
  | batchPromise (id : Nat)
deriving Repr, DecidableEq

/-- Full effect of one `downloadHandler` invocation: the updated module state,
the returned outcome, and whether this invocation started an archive build
(i.e. executed the `batch.promise = downloadAsArchive(...)` assignment). -/
structure HandlerOutput where
  state : AppState
  outcome : DownloadOutcome
  startedBuild : Bool
deriving Repr, DecidableEq

/-- `downloadHandler` from the source: take the single-file path when there is
no batch, the batch has at most one key, or the requested key is not in the
batch (`!batch || batch.keys.length <= 1 || !batch.keys.includes(key)`);
otherwise join the existing batch promise, starting the archive build first
when none is in flight. -/
def downloadHandler (env : DownloadEnv) (st : AppState) (key : String) : HandlerOutput :=
  match st.downloadBatch with
  | none =>
    { state := st,
      outcome := DownloadOutcome.singleResult (catchAsFailed (downloadSingleFile env key)),
      startedBuild := false }
  | some batch =>
    if batch.keys.length ≤ 1 || !(batch.keys.contains key) then
      { state := st,
        outcome := DownloadOutcome.singleResult (catchAsFailed (downloadSingleFile env key)),
        startedBuild := false }
    else
      match batch.promise with
      | some pid =>
        { state := st, outcome := DownloadOutcome.batchPromise pid, startedBuild := false }
      | none =>
        let pid := st.nextPromiseId
        { state := { downloadBatch := some { keys := batch.keys, promise := some pid },
                     nextPromiseId := pid + 1 },
          outcome := DownloadOutcome.batchPromise pid,
          startedBuild := true }

/-- The condition under which the specification says the single-file path is
taken: no batch exists, the batch holds at most one key, or the requested key
is not a member of the batch key list. -/
def takesSingleFilePath (st : AppState) (key : String) : Prop :=
  match st.downloadBatch with
  | none => True
  | some batch => batch.keys.length ≤ 1 ∨ key ∉ batch.keys

instance (st : AppState) (key : String) : Decidable (takesSingleFilePath st key) := by
  unfold takesSingleFilePath
  cases st.downloadBatch with
  | none => exact inferInstanceAs (Decidable True)
  | some batch => exact inferInstanceAs (Decidable (_ ∨ _))

/-- Sequential triggers: run `downloadHandler` once per requested key, threading
the module state, and collect every returned outcome together with the number
of archive builds started along the way. -/
def runTriggers (env : DownloadEnv) (st : AppState) :
    List String → AppState × List DownloadOutcome × Nat
  | [] => (st, [], 0)
  | key :: rest =>
    let out := downloadHandler env st key
    let next := runTriggers env out.state rest
    (next.1, out.outcome :: next.2.1, (if out.startedBuild then 1 else 0) + next.2.2)


/-- When the single-path condition holds, the handler returns the catch-wrapped
single-file result, leaves the state unchanged, and starts no build. -/
theorem downloadHandler_single_of_cond (env : DownloadEnv) (st : AppState) (key : String)
    (h : takesSingleFilePath st key) :
    downloadHandler env st key
      = { state := st,
          outcome := DownloadOutcome.singleResult (catchAsFailed (downloadSingleFile env key)),
          startedBuild := false } := by
  obtain ⟨db, n⟩ := st
  cases db with
  | none => simp [downloadHandler]
  | some batch =>
    have h2 : batch.keys.length ≤ 1 ∨ key ∉ batch.keys := h
    rcases h2 with h1 | h1
    · simp [downloadHandler, h1]
    · simp [downloadHandler, h1]

/-- On the batch path (more than one key, requested key a member), the handler
joins the in-flight promise when one exists and otherwise allocates a fresh
promise, records it on the batch, and marks the build as started. -/
theorem downloadHandler_batch_eq (env : DownloadEnv) (K : List String) (pr : Option Nat)
    (n : Nat) (key : String) (hK : ¬ K.length ≤ 1) (hk : key ∈ K) :
    downloadHandler env
        { downloadBatch := some { keys := K, promise := pr }, nextPromiseId := n } key
      = match pr with
        | some pid =>
          { state := { downloadBatch := some { keys := K, promise := pr },
                       nextPromiseId := n },
            outcome := DownloadOutcome.batchPromise pid, startedBuild := false }
        | none =>
          { state := { downloadBatch := some { keys := K, promise := some n },
                       nextPromiseId := n + 1 },
            outcome := DownloadOutcome.batchPromise n, startedBuild := true } := by
  cases pr with
  | some pid => simp [downloadHandler, hK, hk]
  | none => simp [downloadHandler, hK, hk]

/-- C1: a download trigger produces a single-file outcome, and never starts an
archive build, exactly when no batch exists, the batch holds at most one key,
or the requested key is not a member of the batch; in every other case it
returns a batch promise. -/
theorem downloadHandler_path_iff (env : DownloadEnv) (st : AppState) (key : String) :
    ((∃ r, (downloadHandler env st key).outcome = DownloadOutcome.singleResult r)
        ↔ takesSingleFilePath st key)
    ∧ ((downloadHandler env st key).startedBuild = true → ¬ takesSingleFilePath st key)
    ∧ (¬ takesSingleFilePath st key →
        ∃ pid, (downloadHandler env st key).outcome = DownloadOutcome.batchPromise pid) := by
  by_cases h : takesSingleFilePath st key
  · rw [downloadHandler_single_of_cond env st key h]
    refine ⟨⟨fun _ => h, fun _ => ⟨_, rfl⟩⟩, ?_, fun hc => absurd h hc⟩
    intro hb
    simp at hb
  · obtain ⟨db, n⟩ := st
    cases db with
    | none => exact absurd trivial h
    | some batch =>
      have hcond : ¬ (batch.keys.length ≤ 1 ∨ key ∉ batch.keys) := h
      push_neg at hcond
      obtain ⟨hlen, hmem⟩ := hcond
      have hlen2 : ¬ batch.keys.length ≤ 1 := by omega
      obtain ⟨K, pr⟩ := batch
      rw [downloadHandler_batch_eq env K pr n key hlen2 hmem]
      cases pr with
      | some pid =>
        refine ⟨⟨?_, fun hc => absurd hc h⟩, fun _ => h, fun _ => ⟨pid, rfl⟩⟩
        rintro ⟨r, hr⟩
        simp at hr
      | none =>
        refine ⟨⟨?_, fun hc => absurd hc h⟩, fun _ => h, fun _ => ⟨n, rfl⟩⟩
        rintro ⟨r, hr⟩
        simp at hr

/-- A download backend whose presigned-URL resolution always succeeds; used to
instantiate the handler theorems at concrete inputs. -/
def okUrlEnv : DownloadEnv where
  getUrl := fun _ => Except.ok "https://example.test/object"
  fetchOk := fun _ => true
  fetchBlob := fun _ => 0
  now := 0

/-- A download backend whose presigned-URL resolution always rejects; used to
instantiate the failure cases at concrete inputs. -/
def errUrlEnv : DownloadEnv where
  getUrl := fun _ =>
    Except.error { isError := true, name := "NotFound", message := "object missing" }
  fetchOk := fun _ => true
  fetchBlob := fun _ => 0
  now := 0

/-- C1 witness: with no batch present, the trigger for key "a" produces a
single-file outcome. -/
theorem downloadHandler_path_iff_witness :
    ∃ r, (downloadHandler okUrlEnv { downloadBatch := none, nextPromiseId := 0 } "a").outcome
      = DownloadOutcome.singleResult r :=
  (downloadHandler_path_iff okUrlEnv { downloadBatch := none, nextPromiseId := 0 } "a").1.mpr
    (by simp [takesSingleFilePath])

/-- Triggers for member keys of a batch already in flight all join the same
promise and start no build. -/
theorem runTriggers_inflight (env : DownloadEnv) (K : List String) (pid n : Nat)
    (ks : List String) (hK : 1 < K.length) (hks : ∀ k ∈ ks, k ∈ K) :
    runTriggers env
        { downloadBatch := some { keys := K, promise := some pid }, nextPromiseId := n } ks
      = ({ downloadBatch := some { keys := K, promise := some pid }, nextPromiseId := n },
         ks.map (fun _ => DownloadOutcome.batchPromise pid), 0) := by
  induction ks with
  | nil => rfl
  | cons k rest ih =>
    have hk : k ∈ K := hks k (List.mem_cons_self k rest)
    have hrest : ∀ k2 ∈ rest, k2 ∈ K := fun k2 hk2 => hks k2 (List.mem_cons_of_mem k hk2)
    have hjoin := downloadHandler_batch_eq env K (some pid) n k (Nat.not_le.mpr hK) hk
    simp only [runTriggers, hjoin, ih hrest, List.map_cons]
    rfl

/-- C2: from an active batch of more than one key with no build yet in flight,
a nonempty run of triggers for member keys starts exactly one archive build,
and every trigger (the first included) receives the same shared promise — so
all callers resolve to the same outcome or failure. -/
theorem batch_single_build (env : DownloadEnv) (K : List String) (n : Nat)
    (k : String) (ks : List String)
    (hK : 1 < K.length) (hk : k ∈ K) (hks : ∀ k2 ∈ ks, k2 ∈ K) :
    runTriggers env
        { downloadBatch := some { keys := K, promise := none }, nextPromiseId := n }
        (k :: ks)
      = ({ downloadBatch := some { keys := K, promise := some n }, nextPromiseId := n + 1 },
         (k :: ks).map (fun _ => DownloadOutcome.batchPromise n), 1) := by
  have hfirst := downloadHandler_batch_eq env K none n k (Nat.not_le.mpr hK) hk
  simp only [runTriggers, hfirst, runTriggers_inflight env K n (n + 1) ks hK hks,
    List.map_cons]
  rfl

/-- C2 witness: for the active batch [a, b, c], triggering downloads of a, b
and c in succession starts exactly one archive build and hands every caller
the same promise. -/
theorem batch_single_build_witness :
    runTriggers okUrlEnv
        { downloadBatch := some { keys := ["a", "b", "c"], promise := none },
          nextPromiseId := 0 }
        ["a", "b", "c"]
      = ({ downloadBatch := some { keys := ["a", "b", "c"], promise := some 0 },
           nextPromiseId := 1 },
         [DownloadOutcome.batchPromise 0, DownloadOutcome.batchPromise 0,
          DownloadOutcome.batchPromise 0], 1) :=
  batch_single_build okUrlEnv ["a", "b", "c"] 0 "a" ["b", "c"]
    (by decide) (by decide) (by decide)

/-- The `.catch` stage chained onto the archive promise: on rejection it clears
`downloadBatch` and rethrows the same error; a fulfilled value passes through. -/
def settleCatch (st : AppState) (out : Except JsError TaskResult) :
    AppState × Except JsError TaskResult :=
  match out with
  | Except.error e => ({ st with downloadBatch := none }, Except.error e)
  | Except.ok v => (st, Except.ok v)

/-- The `.finally` stage chained after the catch: it always clears
`downloadBatch` and passes the settled outcome through unchanged. -/
def settleFinally (st : AppState) (out : Except JsError TaskResult) :
    AppState × Except JsError TaskResult :=
  ({ st with downloadBatch := none }, out)

/-- The whole batch promise built in `downloadHandler`:
`downloadAsArchive(...).catch(...).finally(...)`, acting on the module state. -/
def runArchiveAndSettle (env : DownloadEnv) (st : AppState) (keys : List String) :
    AppState × Except JsError TaskResult :=
  let raw := downloadAsArchive env keys
  let afterCatch := settleCatch st raw
  settleFinally afterCatch.1 afterCatch.2

/-- C3: once the batch archive operation settles — success or failure — the
batch state is cleared, so no in-flight promise remains referencable through
it; and the settled outcome equals the raw archive outcome, so a failure is
re-thrown to the callers after clearing, never swallowed. -/
theorem archive_settle_clears (env : DownloadEnv) (st : AppState) (keys : List String) :
    (runArchiveAndSettle env st keys).1.downloadBatch = none
    ∧ (runArchiveAndSettle env st keys).2 = downloadAsArchive env keys := by
  unfold runArchiveAndSettle settleFinally settleCatch
  cases downloadAsArchive env keys with
  | ok v => exact ⟨rfl, rfl⟩
  | error e => exact ⟨rfl, rfl⟩

/-- C7: on the single-file path the handler leaves the module state (batch
state included) untouched, and the outcome is either COMPLETE carrying the
resolved presigned URL or FAILED carrying the resolution error and its
message. -/
theorem singleFile_result (env : DownloadEnv) (st : AppState) (key : String)
    (h : takesSingleFilePath st key) :
    (downloadHandler env st key).state = st
    ∧ ((∃ url, env.getUrl key = Except.ok url ∧
          (downloadHandler env st key).outcome
            = DownloadOutcome.singleResult (TaskResult.complete url))
       ∨ (∃ e, env.getUrl key = Except.error e ∧
          (downloadHandler env st key).outcome
            = DownloadOutcome.singleResult (TaskResult.failed e e.message))) := by
  have hsingle := downloadHandler_single_of_cond env st key h
  refine ⟨by rw [hsingle], ?_⟩
  cases hu : env.getUrl key with
  | ok url =>
    left
    refine ⟨url, rfl, ?_⟩
    rw [hsingle]
    simp [catchAsFailed, downloadSingleFile, hu, Except.map]
  | error e =>
    right
    refine ⟨e, rfl, ?_⟩
    rw [hsingle]
    simp [catchAsFailed, downloadSingleFile, hu, Except.map]

/-- C7 witness: a failing presigned-URL resolution with no batch present yields
a FAILED single-file result carrying the error and its message, and leaves the
state untouched. -/
theorem singleFile_result_witness :
    (downloadHandler errUrlEnv { downloadBatch := none, nextPromiseId := 3 } "x").state
      = { downloadBatch := none, nextPromiseId := 3 }
    ∧ ((∃ url, errUrlEnv.getUrl "x" = Except.ok url ∧
          (downloadHandler errUrlEnv
              { downloadBatch := none, nextPromiseId := 3 } "x").outcome
            = DownloadOutcome.singleResult (TaskResult.complete url))
       ∨ (∃ e, errUrlEnv.getUrl "x" = Except.error e ∧
          (downloadHandler errUrlEnv
              { downloadBatch := none, nextPromiseId := 3 } "x").outcome
            = DownloadOutcome.singleResult (TaskResult.failed e e.message))) :=
  singleFile_result errUrlEnv { downloadBatch := none, nextPromiseId := 3 } "x"
    (by simp [takesSingleFilePath])

/-- One entry returned by the storage listing; the code reads `item.path` and
falls back to `item.key` and then to the empty string. -/
structure ListedItem where
  path : Option String
  key : Option String
deriving Repr, DecidableEq

/-- The storage backend as seen by the deletion code: recursive listing under a
prefix (list-all mode) and the outcome of each remove call (`none` means the
call succeeds, `some e` means it rejects with `e`). -/
structure StorageEnv where
  listItems : String → List ListedItem
  removeOutcome : String → Option JsError

/-- The JavaScript `key.endsWith(sep)` test for the single-character delimiter:
true iff the final character is the slash. -/
def endsWithSlash (key : String) : Bool :=
  match key.toList.getLast? with
  | some c => c == '/'
  | none => false

/-- `ensureFolderPath` from the source: append a trailing delimiter unless the
key already ends with one. -/
def ensureFolderPath (key : String) : String :=
  if endsWithSlash key then key else key ++ "/"

/-- `resolveItemPath` from the source: `item.path ?? item.key ?? ''`. -/
def resolveItemPath (item : ListedItem) : String :=
  item.path.getD (item.key.getD "")

/-- Prefix test on character lists (the building block for the substring test
modelling the regular-expression search). -/
def isPrefixChars : List Char → List Char → Bool
  | [], _ => true
  | _ :: _, [] => false
  | a :: as, b :: bs => a == b && isPrefixChars as bs

/-- Substring test on character lists: the needle occurs somewhere in the hay. -/
def containsChars (needle : List Char) : List Char → Bool
  | [] => isPrefixChars needle []
  | c :: cs => isPrefixChars needle (c :: cs) || containsChars needle cs

/-- Lower-casing at the character level, for the case-insensitive match. -/
def lowerChars (cs : List Char) : List Char :=
  cs.map Char.toLower

/-- `isNotFoundError` from the source: the thrown value must be an `Error`;
then either its name is exactly NoSuchKey, or its message matches the
case-insensitive pattern /NoSuchKey/i (a substring search after lowering). -/
def isNotFoundError (e : JsError) : Bool :=
  e.isError &&
    (e.name == "NoSuchKey"
      || containsChars "nosuchkey".toList (lowerChars e.message.toList))

/-- `removeObjectIfExists` from the source, returning the delete calls it
issues alongside the outcome: an empty path is skipped entirely; otherwise the
remove call is issued, a not-found rejection is swallowed as success, and any
other rejection is rethrown. -/
def removeObjectIfExists (env : StorageEnv) (path : String) :
    List String × Except JsError Unit :=
  if path = "" then
    ([], Except.ok ())
  else
    ([path],
      match env.removeOutcome path with
      | none => Except.ok ()
      | some e => if isNotFoundError e then Except.ok () else Except.error e)

/-- The JavaScript `Set.add`: appends the element unless already present, so
iteration order is insertion order. -/
def jsSetAdd (s : List String) (x : String) : List String :=
  if x ∈ s then s else s ++ [x]

/-- One step of the `items.forEach` loop in `deleteFolderContents`: resolve the
item path and add it to the set when nonempty (`if (itemPath)`). -/
def collectStep (s : List String) (item : ListedItem) : List String :=
  let itemPath := resolveItemPath item
  if itemPath = "" then s else jsSetAdd s itemPath

/-- The path set accumulated from the listing in `deleteFolderContents`. -/
def collectPaths (items : List ListedItem) : List String :=
  items.foldl collectStep []

/-- The full `pathsToDelete` set of `deleteFolderContents`: the nonempty
resolved listing paths, with the normalized folder path itself added last. -/
def pathsToDelete (env : StorageEnv) (folderKey : String) : List String :=
  jsSetAdd (collectPaths (env.listItems (ensureFolderPath folderKey)))
    (ensureFolderPath folderKey)

/-- The `for ... of pathsToDelete` loop: issue the deletes in order, stopping
at (and propagating) the first rethrown error. -/
def runRemovals (env : StorageEnv) : List String → List String × Except JsError Unit
  | [] => ([], Except.ok ())
  | p :: rest =>
    let first := removeObjectIfExists env p
    match first.2 with
    | Except.error e => (first.1, Except.error e)
    | Except.ok _ =>
      let restRun := runRemovals env rest
      (first.1 ++ restRun.1, restRun.2)

/-- `deleteFolderContents` from the source: list everything under the
normalized folder prefix, build the deduplicated path set, and delete each
member in order. -/
def deleteFolderContents (env : StorageEnv) (folderKey : String) :
    List String × Except JsError Unit :=
  runRemovals env (pathsToDelete env folderKey)

/-- The folder half of `deleteFilesAndFolders`: process each selected folder in
order, stopping at the first failure. -/
def runFolderDeletions (env : StorageEnv) : List String → List String × Except JsError Unit
  | [] => ([], Except.ok ())
  | folderKey :: rest =>
    let first := deleteFolderContents env folderKey
    match first.2 with
    | Except.error e => (first.1, Except.error e)
    | Except.ok _ =>
      let restRun := runFolderDeletions env rest
      (first.1 ++ restRun.1, restRun.2)

/-- `deleteFilesAndFolders` from the source: remove every selected plain file
in list order, then process every selected folder, sequentially, aborting at
the first failure. -/
def deleteFilesAndFolders (env : StorageEnv) (files folders : List String) :
    List String × Except JsError Unit :=
  let fileRun := runRemovals env files
  match fileRun.2 with
  | Except.error e => (fileRun.1, Except.error e)
  | Except.ok _ =>
    let folderRun := runFolderDeletions env folders
    (fileRun.1 ++ folderRun.1, folderRun.2)

/-- A remove call whose outcome the deletion code tolerates: plain success, or
a rejection recognized as not-found. -/
def toleratedRemove (env : StorageEnv) (path : String) : Bool :=
  match env.removeOutcome path with
  | none => true
  | some e => isNotFoundError e

/-- Membership in a JavaScript-set insertion. -/
theorem mem_jsSetAdd (s : List String) (x y : String) :
    y ∈ jsSetAdd s x ↔ y ∈ s ∨ y = x := by
  unfold jsSetAdd
  by_cases h : x ∈ s
  · rw [if_pos h]
    constructor
    · exact Or.inl
    · rintro (hy | rfl)
      · exact hy
      · exact h
  · rw [if_neg h]
    simp

/-- Set insertion preserves freedom from duplicates. -/
theorem nodup_jsSetAdd (s : List String) (x : String) (h : s.Nodup) :
    (jsSetAdd s x).Nodup := by
  unfold jsSetAdd
  by_cases hx : x ∈ s
  · rwa [if_pos hx]
  · rw [if_neg hx]
    simp [List.nodup_append, h, hx]

/-- Membership in the accumulated path set: an element is either already in the
accumulator or the nonempty resolved path of some listed item. -/
theorem mem_foldl_collectStep (items : List ListedItem) (acc : List String) (p : String) :
    p ∈ items.foldl collectStep acc
      ↔ p ∈ acc ∨ ∃ item ∈ items, resolveItemPath item = p ∧ p ≠ "" := by
  induction items generalizing acc with
  | nil => simp
  | cons it rest ih =>
    rw [List.foldl_cons, ih]
    have hstep : collectStep acc it
        = if resolveItemPath it = "" then acc else jsSetAdd acc (resolveItemPath it) := rfl
    by_cases hip : resolveItemPath it = ""
    · rw [hstep, if_pos hip]
      constructor
      · rintro (h | ⟨item, hm, he, hne⟩)
        · exact Or.inl h
        · exact Or.inr ⟨item, List.mem_cons_of_mem _ hm, he, hne⟩
      · rintro (h | ⟨item, hm, he, hne⟩)
        · exact Or.inl h
        · rcases List.mem_cons.mp hm with heq | hm2
          · rw [heq] at he
            exact absurd (he.symm.trans hip) hne
          · exact Or.inr ⟨item, hm2, he, hne⟩
    · rw [hstep, if_neg hip]
      constructor
      · rintro (h | ⟨item, hm, he, hne⟩)
        · rcases (mem_jsSetAdd acc (resolveItemPath it) p).mp h with h2 | rfl
          · exact Or.inl h2
          · exact Or.inr ⟨it, List.mem_cons_self it rest, rfl, hip⟩
        · exact Or.inr ⟨item, List.mem_cons_of_mem _ hm, he, hne⟩
      · rintro (h | ⟨item, hm, he, hne⟩)
        · exact Or.inl ((mem_jsSetAdd acc (resolveItemPath it) p).mpr (Or.inl h))
        · rcases List.mem_cons.mp hm with heq | hm2
          · rw [heq] at he
            exact Or.inl ((mem_jsSetAdd acc (resolveItemPath it) p).mpr (Or.inr he.symm))
          · exact Or.inr ⟨item, hm2, he, hne⟩

/-- The accumulated path set stays duplicate-free. -/
theorem nodup_foldl_collectStep (items : List ListedItem) (acc : List String)
    (h : acc.Nodup) : (items.foldl collectStep acc).Nodup := by
  induction items generalizing acc with
  | nil => simpa
  | cons it rest ih =>
    rw [List.foldl_cons]
    apply ih
    have hstep : collectStep acc it
        = if resolveItemPath it = "" then acc else jsSetAdd acc (resolveItemPath it) := rfl
    rw [hstep]
    by_cases hip : resolveItemPath it = ""
    · rwa [if_pos hip]
    · rw [if_neg hip]
      exact nodup_jsSetAdd acc _ h

/-- The normalized folder path is never the empty string. -/
theorem ensureFolderPath_ne_empty (key : String) : ensureFolderPath key ≠ "" := by
  unfold ensureFolderPath
  by_cases h : endsWithSlash key = true
  · rw [if_pos h]
    intro hcon
    subst hcon
    simp [endsWithSlash] at h
  · rw [if_neg h]
    intro hcon
    have hlen := congrArg String.length hcon
    rw [String.length_append] at hlen
    have h1 : "/".length = 1 := rfl
    have h0 : "".length = 0 := rfl
    rw [h1, h0] at hlen
    omega

/-- Characterization of the deduplicated deletion set: exactly the nonempty
resolved listing paths together with the normalized folder path. -/
theorem pathsToDelete_mem (env : StorageEnv) (folderKey : String) (p : String) :
    p ∈ pathsToDelete env folderKey
      ↔ ((∃ item ∈ env.listItems (ensureFolderPath folderKey),
            resolveItemPath item = p ∧ p ≠ "")
         ∨ p = ensureFolderPath folderKey) := by
  unfold pathsToDelete collectPaths
  rw [mem_jsSetAdd, mem_foldl_collectStep]
  simp

/-- The deletion set holds no duplicates. -/
theorem pathsToDelete_nodup (env : StorageEnv) (folderKey : String) :
    (pathsToDelete env folderKey).Nodup :=
  nodup_jsSetAdd _ _ (nodup_foldl_collectStep _ [] List.nodup_nil)

/-- Every member of the deletion set is a nonempty path. -/
theorem pathsToDelete_ne_empty (env : StorageEnv) (folderKey : String) :
    ∀ p ∈ pathsToDelete env folderKey, p ≠ "" := by
  intro p hp
  rcases (pathsToDelete_mem env folderKey p).mp hp with ⟨_, _, _, hne⟩ | rfl
  · exact hne
  · exact ensureFolderPath_ne_empty folderKey

/-- When every remove outcome along a list is tolerated, the loop issues one
delete call per nonempty path, in order, and succeeds. -/
theorem runRemovals_tolerated (env : StorageEnv) (l : List String)
    (h : ∀ p ∈ l, toleratedRemove env p = true) :
    runRemovals env l = (l.filter (fun p => p ≠ ""), Except.ok ()) := by
  induction l with
  | nil => rfl
  | cons p rest ih =>
    have hp := h p (List.mem_cons_self p rest)
    have hrest := ih (fun q hq => h q (List.mem_cons_of_mem p hq))
    by_cases hemp : p = ""
    · subst hemp
      simp [runRemovals, removeObjectIfExists, hrest]
    · cases hro : env.removeOutcome p with
      | none =>
        simp [runRemovals, removeObjectIfExists, hemp, hro, hrest, List.filter_cons]
      | some e =>
        have hp2 : isNotFoundError e = true := by
          simpa [toleratedRemove, hro] using hp
        simp [runRemovals, removeObjectIfExists, hemp, hro, hp2, hrest, List.filter_cons]

/-- A non-tolerated outcome aborts the loop: the calls issued are the tolerated
prefix (its nonempty paths) plus the failing path, and the error surfaces. -/
theorem runRemovals_abort (env : StorageEnv) (pre post : List String) (p : String)
    (e : JsError)
    (hpre : ∀ q ∈ pre, toleratedRemove env q = true)
    (hpne : p ≠ "") (he : env.removeOutcome p = some e)
    (hnf : isNotFoundError e = false) :
    runRemovals env (pre ++ p :: post)
      = (pre.filter (fun q => q ≠ "") ++ [p], Except.error e) := by
  induction pre with
  | nil =>
    simp [runRemovals, removeObjectIfExists, hpne, he, hnf]
  | cons q rest ih =>
    have hq := hpre q (List.mem_cons_self q rest)
    have hrest := ih (fun r hr => hpre r (List.mem_cons_of_mem q hr))
    by_cases hemp : q = ""
    · subst hemp
      simp [runRemovals, removeObjectIfExists, hrest, List.filter_cons]
    · cases hro : env.removeOutcome q with
      | none =>
        simp [runRemovals, removeObjectIfExists, hemp, hro, hrest, List.filter_cons]
      | some e2 =>
        have hq2 : isNotFoundError e2 = true := by
          simpa [toleratedRemove, hro] using hq
        simp [runRemovals, removeObjectIfExists, hemp, hro, hq2, hrest, List.filter_cons]

/-- C6: for every folder deletion, the delete calls issued are exactly the
deduplicated union of the nonempty descendant paths listed under the folder's
normalized prefix and the folder's own trailing-delimiter path — provided each
call's outcome is success or a tolerated not-found rejection — while any other
rejection aborts the remaining sequence right after the failing call and
surfaces as the failure. -/
theorem deleteFolderContents_spec (env : StorageEnv) (folderKey : String) :
    ((∀ p ∈ pathsToDelete env folderKey, toleratedRemove env p = true) →
        deleteFolderContents env folderKey
          = (pathsToDelete env folderKey, Except.ok ()))
    ∧ (pathsToDelete env folderKey).Nodup
    ∧ (∀ p, p ∈ pathsToDelete env folderKey ↔
        ((∃ item ∈ env.listItems (ensureFolderPath folderKey),
            resolveItemPath item = p ∧ p ≠ "")
         ∨ p = ensureFolderPath folderKey))
    ∧ (∀ (pre post : List String) (p : String) (e : JsError),
        pathsToDelete env folderKey = pre ++ p :: post →
        (∀ q ∈ pre, toleratedRemove env q = true) →
        env.removeOutcome p = some e → isNotFoundError e = false →
        deleteFolderContents env folderKey = (pre ++ [p], Except.error e)) := by
  refine ⟨?_, pathsToDelete_nodup env folderKey, pathsToDelete_mem env folderKey, ?_⟩
  · intro h
    unfold deleteFolderContents
    rw [runRemovals_tolerated env _ h]
    have hfil : (pathsToDelete env folderKey).filter (fun p => p ≠ "")
        = pathsToDelete env folderKey := by
      apply List.filter_eq_self.mpr
      intro a ha
      simpa using pathsToDelete_ne_empty env folderKey a ha
    rw [hfil]
  · intro pre post p e hdecomp hpre he hnf
    have hpmem : p ∈ pathsToDelete env folderKey := by
      rw [hdecomp]
      exact List.mem_append_right pre (List.mem_cons_self p post)
    have hpne : p ≠ "" := pathsToDelete_ne_empty env folderKey p hpmem
    have hprene : ∀ q ∈ pre, q ≠ "" := by
      intro q hq
      apply pathsToDelete_ne_empty env folderKey q
      rw [hdecomp]
      exact List.mem_append_left _ hq
    unfold deleteFolderContents
    rw [hdecomp, runRemovals_abort env pre post p e hpre hpne he hnf]
    have hfil : pre.filter (fun q => q ≠ "") = pre := by
      apply List.filter_eq_self.mpr
      intro a ha
      simpa using hprene a ha
    rw [hfil]

/-- A concrete storage backend for the folder "dir": the listing returns two
files plus the folder marker itself, one remove rejects with NoSuchKey (which
must be tolerated), and all the others succeed. -/
def sampleEnv : StorageEnv where
  listItems := fun p =>
    if p = "dir/" then
      [{ path := some "dir/f1", key := none },
       { path := some "dir/f2", key := none },
       { path := some "dir/", key := none }]
    else []
  removeOutcome := fun p =>
    if p = "dir/f2" then
      some { isError := true, name := "NoSuchKey", message := "NoSuchKey: dir/f2" }
    else none

/-- C6 witness: deleting the folder "dir" containing f1, f2 and its own marker
issues exactly the 3 deduplicated delete calls and succeeds even though one of
the removes reported not-found. -/
theorem deleteFolderContents_spec_witness :
    deleteFolderContents sampleEnv "dir" = (pathsToDelete sampleEnv "dir", Except.ok ())
    ∧ (pathsToDelete sampleEnv "dir").length = 3 :=
  ⟨(deleteFolderContents_spec sampleEnv "dir").1 (by decide), by decide⟩

/-- C10: when every plain-file remove is tolerated, the combined deletion
performs one delete call per (nonempty) selected file, in list order, strictly
before any folder work, and the overall outcome is exactly the folder phase's
outcome — so a folder failure happens only after all selected files were
already deleted. -/
theorem deleteFilesAndFolders_order (env : StorageEnv) (files folders : List String)
    (h : ∀ f ∈ files, toleratedRemove env f = true) :
    deleteFilesAndFolders env files folders
      = (files.filter (fun f => f ≠ "") ++ (runFolderDeletions env folders).1,
         (runFolderDeletions env folders).2) := by
  simp [deleteFilesAndFolders, runRemovals_tolerated env files h]

/-- A backend where deleting the folder marker "boom/" is denied while every
other remove succeeds. -/
def failEnv : StorageEnv where
  listItems := fun _ => []
  removeOutcome := fun p =>
    if p = "boom/" then
      some { isError := true, name := "AccessDenied", message := "access denied" }
    else none

/-- C10 witness: with files f1 and f2 and the failing folder "boom", the file
deletes are issued first and the overall result is the folder phase's failure. -/
theorem deleteFilesAndFolders_order_witness :
    deleteFilesAndFolders failEnv ["f1", "f2"] ["boom"]
      = (["f1", "f2"].filter (fun f => f ≠ "")
           ++ (runFolderDeletions failEnv ["boom"]).1,
         (runFolderDeletions failEnv ["boom"]).2) :=
  deleteFilesAndFolders_order failEnv ["f1", "f2"] ["boom"] (by decide)

/-- A selected item as the deletion UI sees it: the stable id used by the
selection sets and the storage key used for naming and deletion. -/
structure SelectedItem where
  id : String
  key : String
deriving Repr, DecidableEq

/-- `getDeleteConfirmationMessage` from the source: empty for an empty
selection; for a single selection, a file- or folder-specific message naming
the item (the folder variant warns its contents are removed too); otherwise a
generic count-based message. -/
def getDeleteConfirmationMessage (files folders : List SelectedItem) : String :=
  let fileCount := files.length
  let folderCount := folders.length
  let total := fileCount + folderCount
  if total = 0 then
    ""
  else if total = 1 then
    if folderCount = 1 then
      "Delete folder \"" ++ getFileName ((folders.headD { id := "", key := "" }).key)
        ++ "\" and all of its contents?"
    else
      "Delete file \"" ++ getFileName ((files.headD { id := "", key := "" }).key) ++ "\"?"
  else
    "Delete " ++ toString total ++ " selected items?"

/-- The user-visible control flow of `handleDeleteSelected`. -/
inductive DeleteAction where
  | noAction
  | promptThenDelete (message : String)
  | deleteWithoutPrompt
deriving Repr, DecidableEq

/-- `handleDeleteSelected` from the source, reduced to its prompting decision:
return immediately when nothing is selected; otherwise build the confirmation
message and, exactly when it is nonempty, prompt with it before running the
deletion. -/
def handleDeleteSelected (files folders : List SelectedItem) : DeleteAction :=
  if files.isEmpty && folders.isEmpty then
    DeleteAction.noAction
  else
    let message := getDeleteConfirmationMessage files folders
    if message = "" then
      DeleteAction.deleteWithoutPrompt
    else
      DeleteAction.promptThenDelete message

/-- C8: the confirmation message names the file for a single selected file,
names the folder and warns about its contents for a single selected folder, is
the generic count-based message for two or more selected items, and is empty
for the empty selection — in which case `handleDeleteSelected` returns without
prompting at all. -/
theorem confirmationMessage_spec :
    (∀ f : SelectedItem, getDeleteConfirmationMessage [f] []
        = "Delete file \"" ++ getFileName f.key ++ "\"?")
    ∧ (∀ d : SelectedItem, getDeleteConfirmationMessage [] [d]
        = "Delete folder \"" ++ getFileName d.key ++ "\" and all of its contents?")
    ∧ (∀ files folders : List SelectedItem, 2 ≤ files.length + folders.length →
        getDeleteConfirmationMessage files folders
          = "Delete " ++ toString (files.length + folders.length) ++ " selected items?")
    ∧ getDeleteConfirmationMessage [] [] = ""
    ∧ handleDeleteSelected [] [] = DeleteAction.noAction := by
  refine ⟨?_, ?_, ?_, rfl, rfl⟩
  · intro f
    simp [getDeleteConfirmationMessage]
  · intro d
    simp [getDeleteConfirmationMessage]
  · intro files folders h
    have h0 : ¬ (files.length + folders.length = 0) := by omega
    have h1 : ¬ (files.length + folders.length = 1) := by omega
    simp [getDeleteConfirmationMessage, h0, h1]

/-- C8 witness: one selected file plus one selected folder produce the generic
two-item message. -/
theorem confirmationMessage_spec_witness :
    getDeleteConfirmationMessage
        [{ id := "1", key := "a" }] [{ id := "2", key := "b" }]
      = "Delete "
          ++ toString (([{ id := "1", key := "a" }] : List SelectedItem).length
              + ([{ id := "2", key := "b" }] : List SelectedItem).length)
          ++ " selected items?" :=
  confirmationMessage_spec.2.2.1 [{ id := "1", key := "a" }] [{ id := "2", key := "b" }]
    (by decide)
